import Mathlib

/-!
# Verification of `compare_matrix.py` (geec_utils)

A shallow embedding of the GeEC matrix-comparison tool.  Python strings are
modelled as `List Char`, Python floats as exact rationals `ℚ` with NaN made
explicit (`Val := Option ℚ`, `none` being NaN), fallible operations return
`Option`.  Definitions follow the source code of
`compare_matrix/compare_matrix.py`; each doc comment names the Python
function it embeds.
-/

set_option maxRecDepth 4000

namespace Geec

/-- Identifiers (Python strings) are character lists. -/
abbrev Ident := List Char

/-- A parsed numeric cell: `some q` is a finite float value (modelled
exactly as a rational), `none` is a non-finite value — the NaN that
`genfromtxt` fills in for an unconvertible token, or the NaN/infinity a
`nan`/`inf` literal converts to.  The model does not distinguish NaN from
±infinity; both subtraction and `abs`, the only operations applied to
cells, send any non-finite operand to a non-finite result, so the
abstraction is sound for them. -/
abbrev Val := Option ℚ

/-- Python's `s.split(sep)` for a single-character separator: splits on every
occurrence of `sep`, keeping empty chunks, so `"".split('_') = [""]` and
`"_".split('_') = ["", ""]`.  The result is always non-empty. -/
def splitOnChar (sep : Char) : List Char → List (List Char)
  | [] => [[]]
  | c :: rest =>
    let r := splitOnChar sep rest
    if c = sep then [] :: r
    else
      match r with
      | [] => [[c]]
      | g :: gs => (c :: g) :: gs

/-- Embeds `field_striper`: `one_field.split('_')[-1]`, the chunk after the
last underscore (the whole label when it has no underscore). -/
def field_striper (one_field : List Char) : Ident :=
  (splitOnChar '_' one_field).getLastD []

/-- The spec's wording of the strip rule: "the substring of the label after
the last underscore" (by the same convention as Python `split`, a label with
no underscore yields the whole label). -/
def after_last_underscore : List Char → List Char
  | [] => []
  | c :: rest =>
    if ('_' : Char) ∈ rest then after_last_underscore rest
    else if c = '_' then rest
    else c :: rest

theorem splitOnChar_ne_nil (sep : Char) (s : List Char) : splitOnChar sep s ≠ [] := by
  cases s with
  | nil => simp [splitOnChar]
  | cons c rest =>
    simp only [splitOnChar]
    split
    · simp
    · split <;> simp

theorem splitOnChar_of_not_mem {sep : Char} {s : List Char} (h : sep ∉ s) :
    splitOnChar sep s = [s] := by
  induction s with
  | nil => rfl
  | cons c rest ih =>
    have hc : ¬ c = sep := fun hcs => h (hcs ▸ List.mem_cons_self c rest)
    have hr : sep ∉ rest := fun hm => h (List.mem_cons_of_mem c hm)
    simp only [splitOnChar, if_neg hc, ih hr]

theorem splitOnChar_of_mem {sep : Char} {s : List Char} (h : sep ∈ s) :
    ∃ g gs, splitOnChar sep s = g :: gs ∧ gs ≠ [] := by
  induction s with
  | nil => cases h
  | cons c rest ih =>
    by_cases hc : c = sep
    · refine ⟨[], splitOnChar sep rest, ?_, splitOnChar_ne_nil sep rest⟩
      simp [splitOnChar, hc]
    · have hm : sep ∈ rest := by
        rcases List.mem_cons.mp h with h1 | h2
        · exact absurd h1.symm hc
        · exact h2
      obtain ⟨g, gs, hgs, hne⟩ := ih hm
      refine ⟨c :: g, gs, ?_, hne⟩
      simp [splitOnChar, hc, hgs]

theorem getLastD_of_ne_nil {α : Type} {l : List α} (h : l ≠ []) (d1 d2 : α) :
    l.getLastD d1 = l.getLastD d2 := by
  rw [List.getLastD_eq_getLast?, List.getLastD_eq_getLast?, List.getLast?_eq_getLast l h]
  rfl

/-- C8: the Loader extracts identifiers with one single fixed rule — for
every label, `field_striper` equals everything following the final
underscore (`after_last_underscore`, the spec's wording). -/
theorem field_striper_is_after_last_underscore (label : List Char) :
    field_striper label = after_last_underscore label := by
  induction label with
  | nil => rfl
  | cons c rest ih =>
    by_cases hmem : ('_' : Char) ∈ rest
    · obtain ⟨g, gs, hgs, hne⟩ := splitOnChar_of_mem hmem
      by_cases hc : c = '_'
      · simp only [field_striper, splitOnChar, if_pos hc, after_last_underscore,
          if_pos hmem]
        rw [List.getLastD_cons]
        rw [getLastD_of_ne_nil (splitOnChar_ne_nil '_' rest) [] []]
        exact ih
      · simp only [field_striper, splitOnChar, if_neg hc, hgs, after_last_underscore,
          if_pos hmem]
        rw [List.getLastD_cons, getLastD_of_ne_nil hne (c :: g) g]
        have h2 : (g :: gs).getLastD [] = gs.getLastD g := List.getLastD_cons [] g gs
        calc gs.getLastD g = (g :: gs).getLastD [] := h2.symm
          _ = after_last_underscore rest := by rw [← hgs]; exact ih
    · by_cases hc : c = '_'
      · simp only [field_striper, splitOnChar, if_pos hc, after_last_underscore,
          if_neg hmem, if_pos hc]
        rw [List.getLastD_cons]
        rw [getLastD_of_ne_nil (splitOnChar_ne_nil '_' rest) [] []]
        rw [splitOnChar_of_not_mem hmem]
        rfl
      · simp only [field_striper, splitOnChar, if_neg hc, splitOnChar_of_not_mem hmem,
          after_last_underscore, if_neg hmem, if_neg hc]
        rfl

/-- Python's `str.rstrip()` character class: space, tab, newline, carriage
return, vertical tab, form feed. -/
def pySpace (c : Char) : Bool :=
  c = ' ' || c = '\t' || c = '\n' || c = '\r' || c.toNat = 11 || c.toNat = 12

/-- Python's `s.rstrip()`: drop trailing whitespace. -/
def rstrip (s : List Char) : List Char :=
  (s.reverse.dropWhile pySpace).reverse

/-- The body of `parse_header`'s loop
`for column_position, field in enumerate(fields): good_field = field_striper(field);
self.header.append(good_field); self.dico[good_field] = column_position`,
as a recursion over the remaining fields.  The state is the pair
`(header, dico)`; a dictionary assignment is modelled as a function update,
so a later assignment to the same key overwrites the earlier one. -/
def headerLoop : List (List Char) → Nat → List Ident × (Ident → Option Nat) →
    List Ident × (Ident → Option Nat)
  | [], _, st => st
  | f :: fs, pos, st =>
    headerLoop fs (pos + 1)
      (st.1 ++ [field_striper f],
       fun k => if k = field_striper f then some pos else st.2 k)

/-- Embeds `Matrix.parse_header`: split the header line on tabs, drop the
first column, then run the loop building `header` and `dico`. -/
def parse_header (line : List Char) : List Ident × (Ident → Option Nat) :=
  headerLoop ((splitOnChar '\t' (rstrip line)).drop 1) 0 ([], fun _ => none)

/-! ### Invariants of the header loop -/

/-- The invariant carried by `headerLoop`: the running header has exactly
`pos` entries, every dico binding points at a matching header slot and at the
last such slot, and every header entry has a binding. -/
def HeaderInv (st : List Ident × (Ident → Option Nat)) (pos : Nat) : Prop :=
  st.1.length = pos ∧
  (∀ id k, st.2 id = some k →
    st.1.get? k = some id ∧ ∀ j, st.1.get? j = some id → j ≤ k) ∧
  (∀ id, id ∈ st.1 → (st.2 id).isSome)

theorem headerLoop_inv (fs : List (List Char)) (pos : Nat)
    (st : List Ident × (Ident → Option Nat)) (h : HeaderInv st pos) :
    HeaderInv (headerLoop fs pos st) (pos + fs.length) := by
  induction fs generalizing pos st with
  | nil => simpa using h
  | cons f fs ih =>
    obtain ⟨hlen, hbind, hcov⟩ := h
    have hstep : HeaderInv
        (st.1 ++ [field_striper f],
         fun k => if k = field_striper f then some pos else st.2 k) (pos + 1) := by
      refine ⟨by simp [hlen], ?_, ?_⟩
      · intro id k hk
        by_cases hid : id = field_striper f
        · subst hid
          simp at hk
          subst hk
          constructor
          · rw [← hlen, List.get?_eq_getElem?]
            exact List.getElem?_concat_length _ _
          · intro j hj
            have hjlt : j < (st.1 ++ [field_striper f]).length :=
              List.get?_eq_some.mp hj |>.1
            simp only [List.length_append, List.length_singleton, hlen] at hjlt
            omega
        · simp only [if_neg hid] at hk
          obtain ⟨hget, hmax⟩ := hbind id k hk
          have hklt : k < st.1.length := (List.get?_eq_some.mp hget).1
          constructor
          · rw [List.get?_eq_getElem?] at hget ⊢
            rwa [List.getElem?_append_left hklt]
          · intro j hj
            have hjlt : j < st.1.length + 1 := by
              have := (List.get?_eq_some.mp hj).1
              simpa using this
            rcases Nat.lt_or_ge j st.1.length with hlt | hge
            · apply hmax
              rw [List.get?_eq_getElem?] at hj ⊢
              rwa [List.getElem?_append_left hlt] at hj
            · exfalso
              have hj' : j = st.1.length := by omega
              subst hj'
              rw [List.get?_eq_getElem?, List.getElem?_concat_length] at hj
              simp at hj
              exact hid hj.symm
      · intro id hid
        rcases List.mem_append.mp hid with hmem | hmem
        · by_cases hf : id = field_striper f
          · simp [hf]
          · have := hcov id hmem
            simpa [if_neg hf] using this
        · have : id = field_striper f := by simpa using hmem
          simp [this]
    have := ih (pos + 1) _ hstep
    simpa [headerLoop, Nat.add_assoc, Nat.add_comm 1 fs.length] using this

theorem parse_header_inv (line : List Char) :
    HeaderInv (parse_header line)
      ((splitOnChar '\t' (rstrip line)).drop 1).length := by
  have h0 : HeaderInv (([] : List Ident), fun _ : Ident => (none : Option Nat)) 0 := by
    refine ⟨rfl, ?_, ?_⟩
    · intro id k hk; cases hk
    · intro id hid; cases hid
  simpa [parse_header] using
    headerLoop_inv ((splitOnChar '\t' (rstrip line)).drop 1) 0 _ h0

/-- A dico binding always points inside the header. -/
theorem parse_header_lt (line : List Char) (id : Ident) (k : Nat)
    (h : (parse_header line).2 id = some k) : k < (parse_header line).1.length := by
  obtain ⟨-, hbind, -⟩ := parse_header_inv line
  exact (List.get?_eq_some.mp (hbind id k h).1).1

/-- dico keys and header entries coincide. -/
theorem parse_header_mem_iff (line : List Char) (id : Ident) :
    id ∈ (parse_header line).1 ↔ ((parse_header line).2 id).isSome := by
  obtain ⟨-, hbind, hcov⟩ := parse_header_inv line
  constructor
  · exact hcov id
  · intro hs
    obtain ⟨k, hk⟩ := Option.isSome_iff_exists.mp hs
    exact List.get?_mem (hbind id k hk).1

/-! ### Numeric parsing (`numpy.genfromtxt` cell conversion) -/

/-- Value of a digit string, most significant first. -/
def digitsVal (l : List Char) : Nat :=
  l.foldl (fun a c => 10 * a + (c.toNat - 48)) 0

/-- Exponent part after `e`/`E`: optional sign then at least one digit. -/
def expVal : List Char → Option Int
  | [] => none
  | '+' :: ds =>
    if !ds.isEmpty && ds.all Char.isDigit then some (Int.ofNat (digitsVal ds)) else none
  | '-' :: ds =>
    if !ds.isEmpty && ds.all Char.isDigit then some (-Int.ofNat (digitsVal ds)) else none
  | ds => if ds.all Char.isDigit then some (Int.ofNat (digitsVal ds)) else none

/-- The exact rational value `m × 10 ^ (k - f)` of a decimal literal whose
mantissa digits (integer and fraction part concatenated) have value `m`,
with `f` fraction digits and exponent `k`, assembled with a single `mkRat`. -/
def decValue (m : Nat) (f : Nat) (k : Int) : ℚ :=
  if 0 ≤ k - Int.ofNat f then mkRat (Int.ofNat (m * 10 ^ (k - Int.ofNat f).toNat)) 1
  else mkRat (Int.ofNat m) (10 ^ (Int.ofNat f - k).toNat)

/-- Unsigned float literal: digits, optional `.digits`, optional exponent.
At least one mantissa digit is required. -/
def mantissaVal (s : List Char) : Option ℚ :=
  let ip := s.takeWhile Char.isDigit
  let rest := s.dropWhile Char.isDigit
  match rest with
  | [] => if ip.isEmpty then none else some (decValue (digitsVal ip) 0 0)
  | '.' :: rest2 =>
    let fp := rest2.takeWhile Char.isDigit
    let rest3 := rest2.dropWhile Char.isDigit
    if ip.isEmpty && fp.isEmpty then none
    else
      let m := digitsVal ip * 10 ^ fp.length + digitsVal fp
      match rest3 with
      | [] => some (decValue m fp.length 0)
      | e :: rest4 =>
        if e = 'e' || e = 'E' then (expVal rest4).map (fun k => decValue m fp.length k)
        else none
  | e :: rest4 =>
    if (e = 'e' || e = 'E') && !ip.isEmpty then
      (expVal rest4).map (fun k => decValue (digitsVal ip) 0 k)
    else none

/-- Models the float conversion `numpy.genfromtxt` applies to each cell
(`float(token)` with the NaN fill value on `ValueError`; `genfromtxt`,
unlike `loadtxt`, never raises on an unconvertible cell).  Like Python's
`float`, surrounding whitespace is stripped and a finite
decimal/scientific literal yields its exact value.  Every other token is
`none`: non-numeric text and the empty field convert to the NaN fill, and
the accepted non-finite literals (`inf`, `nan`, …) to the infinity/NaN
that `none` also stands for. -/
def pythonFloat (s : List Char) : Val :=
  match ((s.dropWhile pySpace).reverse.dropWhile pySpace).reverse with
  | '+' :: r => mantissaVal r
  | '-' :: r => (mantissaVal r).map Rat.neg
  | r => mantissaVal r

/-! ### The Matrix entity -/

/-- Embeds the `Matrix` class state after `__init__`/`parse_file`:
`header` (stripped identifiers in column order), `dico` (identifier to
column index) and `matrix` (the numeric grid). -/
structure Matrix where
  header : List Ident
  dico : Ident → Option Nat
  matrix : List (List Val)

/-- The characters `genfromtxt`'s splitter strips from a line:
`line.strip(" \r\n")` — note tabs are kept. -/
def gSpace (c : Char) : Bool :=
  c = ' ' || c = '\r' || c = '\n'

/-- One body line as `genfromtxt`'s `LineSplitter` sees it: the line is
truncated at the first `#` (the default `comments` marker), stripped of
`" \r\n"` at both ends, and, when nothing remains, reported as an empty
field list (the row is then skipped); otherwise it is split on the tab
delimiter. -/
def splitBodyLine (line : List Char) : List (List Char) :=
  let l := ((line.takeWhile (fun c => c ≠ '#')).dropWhile gSpace).reverse.dropWhile gSpace
  if l.isEmpty then [] else splitOnChar '\t' l.reverse

/-- Embeds `Matrix.parse_matrix`:
`np.genfromtxt(matrix_file, delimiter="\t", usecols=range(1, len(self.header)+1))`.
Each line goes through `splitBodyLine` and empty rows are skipped.  With a
non-empty header, `usecols = [1..n]`: a row lacking one of those columns is
recorded as invalid and makes `genfromtxt` raise `ValueError` at the end
(modelled as `none`); rows with extra columns load fine, no field-count
consistency is imposed.  Each used cell is converted by `pythonFloat`.
With an empty header `usecols = []` is falsy, so `genfromtxt` selects no
columns and instead requires every row to match the first row's field
count, converting all fields.  An empty body is modelled as an empty
grid. -/
def parse_matrix (n : Nat) (body : List (List Char)) : Option (List (List Val)) :=
  let rows := (body.map splitBodyLine).filter (fun r => !r.isEmpty)
  if n = 0 then
    if ∀ r ∈ rows, r.length = (rows.headD []).length then
      some (rows.map (fun r => r.map pythonFloat))
    else none
  else
    if ∀ r ∈ rows, n + 1 ≤ r.length then
      some (rows.map (fun r => ((r.drop 1).take n).map pythonFloat))
    else none

/-- Embeds `Matrix.parse_file` (and so `Matrix.__init__`): the first line
feeds `parse_header`, the remaining lines feed `parse_matrix`.  The input
file is modelled as its list of lines, without trailing newline characters. -/
def parse_file (lines : List (List Char)) : Option Matrix :=
  match parse_matrix (parse_header (lines.headD [])).1.length (lines.drop 1) with
  | none => none
  | some g =>
    some ⟨(parse_header (lines.headD [])).1, (parse_header (lines.headD [])).2, g⟩

theorem parse_file_header {lines : List (List Char)} {m : Matrix}
    (h : parse_file lines = some m) :
    m.header = (parse_header (lines.headD [])).1 ∧
    m.dico = (parse_header (lines.headD [])).2 := by
  unfold parse_file at h
  cases hg : parse_matrix (parse_header (lines.headD [])).1.length (lines.drop 1) with
  | none => rw [hg] at h; cases h
  | some g =>
    rw [hg] at h
    cases h
    exact ⟨rfl, rfl⟩

/-! ### The Differ: `common_fields`, `join`, `sort_output` -/

/-- Embeds `Matrix.common_fields`:
`[field for field in self.header if field in matrix2.dico]`. -/
def common_fields (m1 m2 : Matrix) : List Ident :=
  m1.header.filter (fun field => (m2.dico field).isSome)

/-- `self.matrix[i, j]`: numpy scalar indexing; `none` when an index is out
of bounds (numpy raises `IndexError` there). -/
def mget (g : List (List Val)) (i j : Nat) : Option Val :=
  match g.get? i with
  | none => none
  | some row => row.get? j

/-- Float subtraction `value2 - value1` on cells, with NaN (`none`)
propagating as in IEEE arithmetic; finite values subtract exactly. -/
def vsub (a b : Val) : Val :=
  match a, b with
  | some x, some y => some (mkRat (x.num * Int.ofNat y.den - y.num * Int.ofNat x.den) (x.den * y.den))
  | _, _ => none

/-- Python `abs` on a cell; NaN propagates. -/
def vabs (a : Val) : Val :=
  match a with
  | some x => some (if x.num < 0 then Rat.neg x else x)
  | none => none

/-- One element `[identifier1, identifier2, value1, value2, diff]` of the
`total_diff_list` built by `Matrix.join`; the field declaration order is the
source's positional order. -/
structure DiffRecord where
  id1 : Ident
  id2 : Ident
  value1 : Val
  value2 : Val
  diff : Val
  deriving DecidableEq

/-- The body of `join`'s inner loop for one pair `(identifier1, identifier2)`
with `counter2 > counter1`:
`col1 = self.dico[identifier1]`, `col2 = matrix2.dico[identifier1]`,
`line1 = self.dico[identifier2]`, `line2 = matrix2.dico[identifier2]`,
`value1 = self.matrix[line1, col1]`, `value2 = matrix2.matrix[line2, col2]`,
`diff = abs(value2 - value1)`.  A failed dictionary or matrix lookup (a
Python `KeyError`/`IndexError`) is `none`. -/
def pairRecord (m1 m2 : Matrix) (id1 id2 : Ident) : Option DiffRecord :=
  match m1.dico id1, m2.dico id1, m1.dico id2, m2.dico id2 with
  | some col1, some col2, some line1, some line2 =>
    match mget m1.matrix line1 col1, mget m2.matrix line2 col2 with
    | some v1, some v2 => some ⟨id1, id2, v1, v2, vabs (vsub v2 v1)⟩
    | _, _ => none
  | _, _, _, _ => none

/-- The index pairs `(counter1, counter2)` with `counter2 > counter1` of the
two nested loops over `common_identifiers`, in emission order (outer loop
major), projected to the identifiers: for `[x, a, b, …]` this is
`(x,a), (x,b), …` followed by the pairs of the tail. -/
def upperPairs : List Ident → List (Ident × Ident)
  | [] => []
  | x :: rest => rest.map (fun y => (x, y)) ++ upperPairs rest

/-- Runs `pairRecord` over a pair list, appending the records in order; the
first failing pair aborts the whole computation, as a raised exception
discards `total_diff_list` in the source. -/
def recordsFor (m1 m2 : Matrix) : List (Ident × Ident) → Option (List DiffRecord)
  | [] => some []
  | p :: ps =>
    match pairRecord m1 m2 p.1 p.2, recordsFor m1 m2 ps with
    | some r, some rs => some (r :: rs)
    | _, _ => none

/-- Embeds `Matrix.join`: all records for the upper-triangle pairs of
`common_fields`, in loop order. -/
def join (m1 m2 : Matrix) : Option (List DiffRecord) :=
  recordsFor m1 m2 (upperPairs (common_fields m1 m2))

/-- Lexicographic (code-point) comparison of numpy fixed-width strings,
as `argsort` uses on a string-dtype column. -/
def strLe : List Char → List Char → Bool
  | [], _ => true
  | _ :: _, [] => false
  | a :: as, b :: bs => if a < b then true else if a = b then strLe as bs else false

/-- Insert an `(index, key)` pair into a key-sorted list. -/
def insertByKey (p : Nat × List Char) : List (Nat × List Char) → List (Nat × List Char)
  | [] => [p]
  | q :: rest => if strLe p.2 q.2 then p :: q :: rest else q :: insertByKey p rest

/-- `keys.argsort()`: the indices of `keys` sorted so the keyed values are
ascending (`argsort`'s tie order is unspecified; this model keeps one valid
order, which every claim below uses only with distinct keys). -/
def argsort (keys : List (List Char)) : List Nat :=
  (keys.enum.foldr insertByKey []).map (fun p => p.1)

/-- Embeds `sort_output` as it acts on the value actually passed to it:
`np.array(total_diff_list)`, whose mixed string/float rows numpy has coerced
to a **string** array.  `total_diff_list[:, 4].argsort()` sorts the
fifth-column strings ascending and `sorted_array[::-1]` reverses.  For an
empty record list `np.array([])` is one-dimensional, so the column indexing
`[:, 4]` raises `IndexError`, modelled as `none`. -/
def sort_output (rows : List (List (List Char))) : Option (List (List (List Char))) :=
  if rows.isEmpty then none
  else
    some ((((argsort (rows.map (fun r => r.getD 4 []))).map
      (fun i => rows.getD i [])).reverse))

/-! ### Lemmas about the join -/

theorem recordsFor_mem {m1 m2 : Matrix} {ps : List (Ident × Ident)}
    {rs : List DiffRecord} (h : recordsFor m1 m2 ps = some rs) {r : DiffRecord}
    (hr : r ∈ rs) : ∃ p, p ∈ ps ∧ pairRecord m1 m2 p.1 p.2 = some r := by
  induction ps generalizing rs with
  | nil =>
    simp only [recordsFor, Option.some.injEq] at h
    subst h
    cases hr
  | cons p ps ih =>
    unfold recordsFor at h
    cases hp : pairRecord m1 m2 p.1 p.2 with
    | none => rw [hp] at h; cases h
    | some r0 =>
      rw [hp] at h
      cases hrec : recordsFor m1 m2 ps with
      | none => rw [hrec] at h; cases h
      | some rs0 =>
        rw [hrec] at h
        simp only [Option.some.injEq] at h
        subst h
        rcases List.mem_cons.mp hr with hr0 | hr0
        · exact ⟨p, List.mem_cons_self p ps, hr0 ▸ hp⟩
        · obtain ⟨q, hq, hqr⟩ := ih hrec hr0
          exact ⟨q, List.mem_cons_of_mem p hq, hqr⟩

theorem recordsFor_forall2 {m1 m2 : Matrix} {ps : List (Ident × Ident)}
    {rs : List DiffRecord} (h : recordsFor m1 m2 ps = some rs) :
    List.Forall₂ (fun p r => pairRecord m1 m2 p.1 p.2 = some r) ps rs := by
  induction ps generalizing rs with
  | nil =>
    simp only [recordsFor, Option.some.injEq] at h
    subst h
    exact List.Forall₂.nil
  | cons p ps ih =>
    unfold recordsFor at h
    cases hp : pairRecord m1 m2 p.1 p.2 with
    | none => rw [hp] at h; cases h
    | some r0 =>
      rw [hp] at h
      cases hrec : recordsFor m1 m2 ps with
      | none => rw [hrec] at h; cases h
      | some rs0 =>
        rw [hrec] at h
        simp only [Option.some.injEq] at h
        subst h
        exact List.Forall₂.cons hp (ih hrec)

theorem recordsFor_length {m1 m2 : Matrix} {ps : List (Ident × Ident)}
    {rs : List DiffRecord} (h : recordsFor m1 m2 ps = some rs) :
    rs.length = ps.length :=
  ((recordsFor_forall2 h).length_eq).symm

theorem pairRecord_eq {m1 m2 : Matrix} {a b : Ident} {r : DiffRecord}
    (h : pairRecord m1 m2 a b = some r) :
    r.id1 = a ∧ r.id2 = b ∧
    ∃ col1 col2 line1 line2,
      m1.dico a = some col1 ∧ m2.dico a = some col2 ∧
      m1.dico b = some line1 ∧ m2.dico b = some line2 ∧
      mget m1.matrix line1 col1 = some r.value1 ∧
      mget m2.matrix line2 col2 = some r.value2 ∧
      r.diff = vabs (vsub r.value2 r.value1) := by
  unfold pairRecord at h
  cases h1 : m1.dico a with
  | none => rw [h1] at h; cases h
  | some col1 =>
  cases h2 : m2.dico a with
  | none => rw [h1, h2] at h; cases h
  | some col2 =>
  cases h3 : m1.dico b with
  | none => rw [h1, h2, h3] at h; cases h
  | some line1 =>
  cases h4 : m2.dico b with
  | none => rw [h1, h2, h3, h4] at h; cases h
  | some line2 =>
  rw [h1, h2, h3, h4] at h
  dsimp only at h
  cases h5 : mget m1.matrix line1 col1 with
  | none => rw [h5] at h; cases h
  | some v1 =>
  cases h6 : mget m2.matrix line2 col2 with
  | none => rw [h5, h6] at h; cases h
  | some v2 =>
  rw [h5, h6] at h
  dsimp only at h
  simp only [Option.some.injEq] at h
  subst h
  exact ⟨rfl, rfl, col1, col2, line1, line2, rfl, rfl, rfl, rfl, h5, h6, rfl⟩

theorem upperPairs_mem {l : List Ident} {p : Ident × Ident}
    (h : p ∈ upperPairs l) : p.1 ∈ l ∧ p.2 ∈ l := by
  induction l with
  | nil => cases h
  | cons x rest ih =>
    unfold upperPairs at h
    rcases List.mem_append.mp h with hm | hm
    · obtain ⟨y, hy, hp⟩ := List.mem_map.mp hm
      subst hp
      exact ⟨List.mem_cons_self x rest, List.mem_cons_of_mem x hy⟩
    · obtain ⟨h1, h2⟩ := ih hm
      exact ⟨List.mem_cons_of_mem x h1, List.mem_cons_of_mem x h2⟩

theorem upperPairs_length (l : List Ident) :
    (upperPairs l).length = l.length.choose 2 := by
  induction l with
  | nil => rfl
  | cons x rest ih =>
    unfold upperPairs
    rw [List.length_append, List.length_map, ih, List.length_cons,
      Nat.choose_succ_succ, Nat.choose_one_right]

theorem upperPairs_ne {l : List Ident} (hnd : l.Nodup) {p : Ident × Ident}
    (h : p ∈ upperPairs l) : p.1 ≠ p.2 := by
  induction l with
  | nil => cases h
  | cons x rest ih =>
    unfold upperPairs at h
    rcases List.mem_append.mp h with hm | hm
    · obtain ⟨y, hy, hp⟩ := List.mem_map.mp hm
      subst hp
      intro hxy
      simp only at hxy
      exact (List.nodup_cons.mp hnd).1 (hxy ▸ hy)
    · exact ih (List.nodup_cons.mp hnd).2 hm

/-- Two index pairs name the same unordered identifier pair. -/
def sameU (p q : Ident × Ident) : Prop :=
  (p.1 = q.1 ∧ p.2 = q.2) ∨ (p.1 = q.2 ∧ p.2 = q.1)

theorem upperPairs_pairwise {l : List Ident} (hnd : l.Nodup) :
    (upperPairs l).Pairwise (fun p q => ¬ sameU p q) := by
  induction l with
  | nil => exact List.Pairwise.nil
  | cons x rest ih =>
    obtain ⟨hx, hrest⟩ := List.nodup_cons.mp hnd
    unfold upperPairs
    rw [List.pairwise_append]
    refine ⟨?_, ih hrest, ?_⟩
    · rw [List.pairwise_map]
      have : rest.Pairwise (fun a b => a ≠ b) := hrest
      refine this.imp ?_
      intro a b hab hsame
      rcases hsame with ⟨-, h2⟩ | ⟨h1, h2⟩
      · simp only at h2
        exact hab h2
      · simp only at h1 h2
        exact hab (h2.trans h1)
    · intro p hp q hq hsame
      obtain ⟨y, hy, hpy⟩ := List.mem_map.mp hp
      subst hpy
      obtain ⟨hq1, hq2⟩ := upperPairs_mem hq
      rcases hsame with ⟨h1, -⟩ | ⟨h1, -⟩
      · simp only at h1
        exact hx (h1 ▸ hq1)
      · simp only at h1
        exact hx (h1 ▸ hq2)

theorem forall2_mem_right {α β : Type} {R : α → β → Prop} {as : List α}
    {bs : List β} (h : List.Forall₂ R as bs) {b : β} (hb : b ∈ bs) :
    ∃ a, a ∈ as ∧ R a b := by
  induction h with
  | nil => cases hb
  | cons hr _ ih =>
    rcases List.mem_cons.mp hb with hb0 | hb0
    · exact ⟨_, List.mem_cons_self _ _, hb0 ▸ hr⟩
    · obtain ⟨a, ha, har⟩ := ih hb0
      exact ⟨a, List.mem_cons_of_mem _ ha, har⟩

theorem forall2_pairwise {α β : Type} {R : α → β → Prop} {P : α → α → Prop}
    {Q : β → β → Prop} {as : List α} {bs : List β} (h : List.Forall₂ R as bs)
    (hp : as.Pairwise P)
    (compat : ∀ a b a' b', R a b → R a' b' → P a a' → Q b b') :
    bs.Pairwise Q := by
  induction h with
  | nil => exact List.Pairwise.nil
  | cons hr htail ih =>
    rw [List.pairwise_cons] at hp ⊢
    refine ⟨?_, ih hp.2⟩
    intro b hb
    obtain ⟨a, ha, har⟩ := forall2_mem_right htail hb
    exact compat _ _ _ _ hr har (hp.1 a ha)

/-! ### Concrete input files used by the claim theorems -/

/-- The empty `Matrix` used as `Option.getD` default. -/
def mdefault : Matrix := ⟨[], fun _ => none, []⟩

/-- The `Matrix` a file loads to (meaningful whenever `parse_file` succeeds,
which each use below establishes separately). -/
def loadD (lines : List (List Char)) : Matrix :=
  (parse_file lines).getD mdefault

/-- Identity matrix file over identifiers `x`, `y`, `z`. -/
def c1LinesA : List (List Char) :=
  ["X\ta_x\tb_y\tc_z".toList, "a_x\t1.0\t0.0\t0.0".toList,
   "b_y\t0.0\t1.0\t0.0".toList, "c_z\t0.0\t0.0\t1.0".toList]

/-- Like `c1LinesA` but with entry 0.5 for the pair (x,y) and 5e-05 for
the pair (x,z). -/
def c1LinesB : List (List Char) :=
  ["X\ta_x\tb_y\tc_z".toList, "a_x\t1.0\t0.5\t5e-05".toList,
   "b_y\t0.5\t1.0\t0.0".toList, "c_z\t5e-05\t0.0\t1.0".toList]

/-- The records `join` produces for `c1LinesA` against `c1LinesB`:
diffs 0.5, 5e-05 and 0.0 in loop order. -/
def c1Recs : List DiffRecord :=
  [⟨"x".toList, "y".toList, some (mkRat 0 1), some (mkRat 1 2), some (mkRat 1 2)⟩,
   ⟨"x".toList, "z".toList, some (mkRat 0 1), some (mkRat 1 20000), some (mkRat 1 20000)⟩,
   ⟨"y".toList, "z".toList, some (mkRat 0 1), some (mkRat 0 1), some (mkRat 0 1)⟩]

/-- Row 0 of `np.array(total_diff_list)` for the `c1Recs` join: numpy
coerces the mixed string/float rows to strings, and Python 2 `str` renders
the float values 0.0, 0.5 and abs(5e-05 - 0.0) as "0.0", "0.5", "5e-05". -/
def c1RowXY : List (List Char) :=
  ["x".toList, "y".toList, "0.0".toList, "0.5".toList, "0.5".toList]

/-- Row 1 of the coerced string array: the 5e-05 record. -/
def c1RowXZ : List (List Char) :=
  ["x".toList, "z".toList, "0.0".toList, "5e-05".toList, "5e-05".toList]

/-- Row 2 of the coerced string array: the 0.0 record. -/
def c1RowYZ : List (List Char) :=
  ["y".toList, "z".toList, "0.0".toList, "0.0".toList, "0.0".toList]

/-- Two labels `a_x` and `b_x` both strip to identifier `x`. -/
def c2Lines : List (List Char) :=
  ["X\ta_x\tb_x".toList, "a_x\t1.0\t0.5".toList, "b_x\t0.5\t1.0".toList]

/-- A 1×1 matrix with identifier `x`. -/
def c3LinesA : List (List Char) := ["X\ta_x".toList, "a_x\t1.0".toList]

/-- A 1×1 matrix with identifier `y`, disjoint from `c3LinesA`. -/
def c3LinesB : List (List Char) := ["X\tb_y".toList, "b_y\t1.0".toList]

/-- A well-shaped body containing the non-numeric field `qq`. -/
def c4Lines : List (List Char) :=
  ["X\ta_x\tb_y".toList, "a_x\t1.0\tqq".toList, "b_y\t0.5\t1.0".toList]

/-- Identifiers `x`, `x`, `y`: two header labels strip to the same
identifier, on a 3×3 identity body. -/
def c6Lines : List (List Char) :=
  ["X\ta_x\tb_x\tc_y".toList, "a_x\t1.0\t0.0\t0.0".toList,
   "b_x\t0.0\t1.0\t0.0".toList, "c_y\t0.0\t0.0\t1.0".toList]

/-- A loadable but asymmetric matrix file: entry (0,1) is 0.5 while entry
(1,0) is 0.3. -/
def c7Lines : List (List Char) :=
  ["X\ta_x\tb_y".toList, "a_x\t1.0\t0.5".toList, "b_y\t0.3\t1.0".toList]

/-- A symmetric 2×2 matrix file over `x`, `y`. -/
def c7SymLines : List (List Char) :=
  ["X\ta_x\tb_y".toList, "a_x\t1.0\t0.5".toList, "b_y\t0.5\t1.0".toList]

/-- Identifier `x` appears at header positions 0 and 2 (labels `a_x`,
`c_x`), with `b_y` in between, over a 3×3 identity body. -/
def c10Lines : List (List Char) :=
  ["X\ta_x\tb_y\tc_x".toList, "a_x\t1.0\t0.0\t0.0".toList,
   "b_y\t0.0\t1.0\t0.0".toList, "c_x\t0.0\t0.0\t1.0".toList]

/-- The spec's `M.get(x, y)`: the grid entry at row `index_of[x]`, column
`index_of[y]`; `none` when an identifier is absent. -/
def Mget (m : Matrix) (x y : Ident) : Option Val :=
  match m.dico x, m.dico y with
  | some i, some j => mget m.matrix i j
  | _, _ => none

/-! ### Claim theorems -/

/-- C1: evaluating the Differ at a concrete pair of loaded matrices whose
diffs are 0.5, 5e-05 and 0.0.  Because `np.array(total_diff_list)` coerces
the mixed rows to strings, `sort_output` orders the diff column
lexicographically: "5e-05" sorts above "0.5", so the final sequence starts
with the 5e-05 record followed by the 0.5 record — the diff of the first
output record is smaller than the diff of the second, refuting the claimed
descending order. -/
theorem c1_string_sort_misorders :
    parse_file c1LinesA = some (loadD c1LinesA) ∧
    parse_file c1LinesB = some (loadD c1LinesB) ∧
    join (loadD c1LinesA) (loadD c1LinesB) = some c1Recs ∧
    sort_output [c1RowXY, c1RowXZ, c1RowYZ] = some [c1RowXZ, c1RowXY, c1RowYZ] ∧
    c1RowXZ.get? 4 = some "5e-05".toList ∧ c1RowXY.get? 4 = some "0.5".toList ∧
    mkRat 1 20000 < mkRat 1 2 :=
  ⟨rfl, rfl, by decide, by decide, by decide, by decide, by decide⟩

/-- C2: evaluating the Loader at a header whose labels `a_x` and `b_x` both
strip to `x`.  The load succeeds — no error of any kind is raised — and
`dico` silently keeps the last-seen column index 1, refuting the claimed
DuplicateIdentifierError (which the source never defines). -/
theorem c2_duplicate_identifier_loads_silently :
    parse_file c2Lines = some (loadD c2Lines) ∧
    (loadD c2Lines).header = ["x".toList, "x".toList] ∧
    (loadD c2Lines).dico "x".toList = some 1 ∧
    (loadD c2Lines).matrix =
      [[some (mkRat 1 1), some (mkRat 1 2)], [some (mkRat 1 2), some (mkRat 1 1)]] :=
  ⟨rfl, by decide, by decide, by decide⟩

/-- C3: evaluating the Differ at two loaded matrices with disjoint
identifiers.  `join` returns the empty record list, but `sort_output` then
fails: `np.array([])` is one-dimensional, so the column indexing
`total_diff_list[:, 4]` raises `IndexError` — the Differ crashes instead of
completing with an empty sequence. -/
theorem c3_disjoint_join_sort_crashes :
    parse_file c3LinesA = some (loadD c3LinesA) ∧
    parse_file c3LinesB = some (loadD c3LinesB) ∧
    common_fields (loadD c3LinesA) (loadD c3LinesB) = [] ∧
    join (loadD c3LinesA) (loadD c3LinesB) = some [] ∧
    sort_output [] = none :=
  ⟨rfl, rfl, by decide, by decide, by decide⟩

/-- C4 counterexample: an input stream whose body contains the non-numeric
field `qq` loads successfully — `genfromtxt` stores NaN for the bad cell
instead of failing — refuting the claimed MalformedInputError. -/
theorem c4_nonnumeric_loads :
    (parse_file c4Lines).isSome = true ∧
    Option.map (fun m => m.matrix) (parse_file c4Lines) =
      some [[some (mkRat 1 1), none], [some (mkRat 1 2), some (mkRat 1 1)]] :=
  ⟨by decide, by decide⟩

/-- C4 amended: for every input stream with at least one header label whose
effective body rows (comment-truncated, stripped, blank rows skipped) each
cover the used columns — at least one more field than the header has
labels — loading succeeds, and every used body cell is stored as
`pythonFloat` of its token: in particular a non-numeric field becomes the
NaN fill value, and no error is raised.  Only a row missing a used column
makes `genfromtxt` raise. -/
theorem c4_nonnumeric_as_nan (lines : List (List Char))
    (hn : (parse_header (lines.headD [])).1.length ≠ 0)
    (h : ∀ r ∈ ((lines.drop 1).map splitBodyLine).filter (fun r => !r.isEmpty),
      (parse_header (lines.headD [])).1.length + 1 ≤ r.length) :
    Option.map (fun m => m.matrix) (parse_file lines) =
      some ((((lines.drop 1).map splitBodyLine).filter (fun r => !r.isEmpty)).map
        (fun r => ((r.drop 1).take
          (parse_header (lines.headD [])).1.length).map pythonFloat)) := by
  unfold parse_file parse_matrix
  rw [if_neg hn, if_pos h]
  rfl

/-- Witness for `c4_nonnumeric_as_nan` at the concrete file `c4Lines`. -/
theorem c4_nonnumeric_as_nan_witness :
    (parse_header (c4Lines.headD [])).1.length ≠ 0 ∧
    (∀ r ∈ ((c4Lines.drop 1).map splitBodyLine).filter (fun r => !r.isEmpty),
      (parse_header (c4Lines.headD [])).1.length + 1 ≤ r.length) ∧
    Option.map (fun m => m.matrix) (parse_file c4Lines) =
      some ((((c4Lines.drop 1).map splitBodyLine).filter (fun r => !r.isEmpty)).map
        (fun r => ((r.drop 1).take
          (parse_header (c4Lines.headD [])).1.length).map pythonFloat)) :=
  ⟨by decide, by decide, c4_nonnumeric_as_nan c4Lines (by decide) (by decide)⟩

/-- C5: every record `join` emits for an identifier pair (id1, id2) carries
`value1 = self.matrix[self.dico[id2], self.dico[id1]]`,
`value2 = matrix2.matrix[matrix2.dico[id2], matrix2.dico[id1]]` and
`diff = abs(value2 - value1)`; the fields sit in the positional order
id1, id2, value1, value2, diff of the `DiffRecord` structure. -/
theorem c5_record_fields (m1 m2 : Matrix) (rs : List DiffRecord) (r : DiffRecord)
    (hj : join m1 m2 = some rs) (hr : r ∈ rs) :
    ∃ col1 col2 line1 line2,
      m1.dico r.id1 = some col1 ∧ m2.dico r.id1 = some col2 ∧
      m1.dico r.id2 = some line1 ∧ m2.dico r.id2 = some line2 ∧
      mget m1.matrix line1 col1 = some r.value1 ∧
      mget m2.matrix line2 col2 = some r.value2 ∧
      r.diff = vabs (vsub r.value2 r.value1) := by
  obtain ⟨p, -, hpr⟩ := recordsFor_mem hj hr
  obtain ⟨h1, h2, rest⟩ := pairRecord_eq hpr
  rw [h1, h2]
  exact rest

/-- Witness for `c5_record_fields` at the first record of the
`c1LinesA`/`c1LinesB` join. -/
theorem c5_record_fields_witness :
    join (loadD c1LinesA) (loadD c1LinesB) = some c1Recs ∧
    (⟨"x".toList, "y".toList, some (mkRat 0 1), some (mkRat 1 2), some (mkRat 1 2)⟩ :
      DiffRecord) ∈ c1Recs ∧
    (∃ col1 col2 line1 line2,
      (loadD c1LinesA).dico (DiffRecord.id1 ⟨"x".toList, "y".toList, some (mkRat 0 1),
        some (mkRat 1 2), some (mkRat 1 2)⟩) = some col1 ∧
      (loadD c1LinesB).dico (DiffRecord.id1 ⟨"x".toList, "y".toList, some (mkRat 0 1),
        some (mkRat 1 2), some (mkRat 1 2)⟩) = some col2 ∧
      (loadD c1LinesA).dico (DiffRecord.id2 ⟨"x".toList, "y".toList, some (mkRat 0 1),
        some (mkRat 1 2), some (mkRat 1 2)⟩) = some line1 ∧
      (loadD c1LinesB).dico (DiffRecord.id2 ⟨"x".toList, "y".toList, some (mkRat 0 1),
        some (mkRat 1 2), some (mkRat 1 2)⟩) = some line2 ∧
      mget (loadD c1LinesA).matrix line1 col1 = some (some (mkRat 0 1)) ∧
      mget (loadD c1LinesB).matrix line2 col2 = some (some (mkRat 1 2)) ∧
      (some (mkRat 1 2) : Val) = vabs (vsub (some (mkRat 1 2)) (some (mkRat 0 1)))) :=
  ⟨by decide, by decide,
    c5_record_fields (loadD c1LinesA) (loadD c1LinesB) c1Recs
      ⟨"x".toList, "y".toList, some (mkRat 0 1), some (mkRat 1 2), some (mkRat 1 2)⟩
      (by decide) (by decide)⟩

/-- C6 counterexample: the duplicate-identifier file `c6Lines` loads (its
identifier list is `x, x, y`), and joining it with itself emits a record
whose id1 and id2 are both `x` — a self-pair, refuting the claim for this
pair of loaded matrices. -/
theorem c6_selfpair_counterexample :
    parse_file c6Lines = some (loadD c6Lines) ∧
    (common_fields (loadD c6Lines) (loadD c6Lines)).length = 3 ∧
    Option.map (fun rs => rs.any (fun r => r.id1 == r.id2))
      (join (loadD c6Lines) (loadD c6Lines)) = some true :=
  ⟨rfl, by decide, by decide⟩

/-- C6 amended: for matrices whose identifier list is duplicate-free (the
spec's data-model invariant) and on which `join` completes, exactly
`n*(n-1)/2` records are produced for `n` common identifiers, none is a
self-pair, and no unordered identifier pair repeats. -/
theorem c6_join_pair_structure (m1 m2 : Matrix) (rs : List DiffRecord)
    (hnd : m1.header.Nodup) (hj : join m1 m2 = some rs) :
    rs.length =
      (common_fields m1 m2).length * ((common_fields m1 m2).length - 1) / 2 ∧
    (∀ r ∈ rs, r.id1 ≠ r.id2) ∧
    rs.Pairwise (fun r q => ¬ sameU (r.id1, r.id2) (q.id1, q.id2)) := by
  have hcnd : (common_fields m1 m2).Nodup := hnd.filter _
  refine ⟨?_, ?_, ?_⟩
  · rw [recordsFor_length hj, upperPairs_length, Nat.choose_two_right]
  · intro r hr
    obtain ⟨p, hp, hpr⟩ := recordsFor_mem hj hr
    obtain ⟨h1, h2, -⟩ := pairRecord_eq hpr
    rw [h1, h2]
    exact upperPairs_ne hcnd hp
  · refine forall2_pairwise (recordsFor_forall2 hj) (upperPairs_pairwise hcnd) ?_
    intro p r q s hpr hqs hne hsame
    obtain ⟨hp1, hp2, -⟩ := pairRecord_eq hpr
    obtain ⟨hq1, hq2, -⟩ := pairRecord_eq hqs
    apply hne
    rcases hsame with ⟨u1, u2⟩ | ⟨u1, u2⟩
    · simp only at u1 u2
      exact Or.inl ⟨by rw [← hp1, ← hq1]; exact u1, by rw [← hp2, ← hq2]; exact u2⟩
    · simp only at u1 u2
      exact Or.inr ⟨by rw [← hp1, ← hq2]; exact u1, by rw [← hp2, ← hq1]; exact u2⟩

/-- Witness for `c6_join_pair_structure` at the `c1LinesA`/`c1LinesB`
join: three identifiers, three records. -/
theorem c6_join_pair_structure_witness :
    (loadD c1LinesA).header.Nodup ∧
    join (loadD c1LinesA) (loadD c1LinesB) = some c1Recs ∧
    (c1Recs.length =
      (common_fields (loadD c1LinesA) (loadD c1LinesB)).length *
        ((common_fields (loadD c1LinesA) (loadD c1LinesB)).length - 1) / 2 ∧
    (∀ r ∈ c1Recs, r.id1 ≠ r.id2) ∧
    c1Recs.Pairwise (fun r q => ¬ sameU (r.id1, r.id2) (q.id1, q.id2))) :=
  ⟨by decide, by decide,
    c6_join_pair_structure (loadD c1LinesA) (loadD c1LinesB) c1Recs
      (by decide) (by decide)⟩

/-- C7 counterexample: the asymmetric file `c7Lines` loads successfully
(nothing verifies symmetry), and the entry at (row index_of[x], column
index_of[y]) is 0.5 while the entry at (row index_of[y], column
index_of[x]) is 0.3 — `M.get(x,y) ≠ M.get(y,x)` for a loaded Matrix. -/
theorem c7_asymmetric_counterexample :
    parse_file c7Lines = some (loadD c7Lines) ∧
    "x".toList ∈ (loadD c7Lines).header ∧ "y".toList ∈ (loadD c7Lines).header ∧
    Mget (loadD c7Lines) "x".toList "y".toList = some (some (mkRat 1 2)) ∧
    Mget (loadD c7Lines) "y".toList "x".toList = some (some (mkRat 3 10)) ∧
    Mget (loadD c7Lines) "x".toList "y".toList ≠
      Mget (loadD c7Lines) "y".toList "x".toList :=
  ⟨rfl, by decide, by decide, by decide, by decide, by decide⟩

/-- C7 amended: for every loaded Matrix whose grid covers its header (at
least as many rows as identifiers) and is symmetric — the input-format
convention the spec records as "symmetric by construction, not enforced" —
the entry at (index_of[x], index_of[y]) equals the entry at
(index_of[y], index_of[x]) for all identifiers x, y of the matrix. -/
theorem c7_symmetric_lookup (lines : List (List Char)) (m : Matrix) (x y : Ident)
    (hm : parse_file lines = some m)
    (hlen : m.header.length ≤ m.matrix.length)
    (hsym : ∀ i < m.matrix.length, ∀ j < m.matrix.length,
      mget m.matrix i j = mget m.matrix j i)
    (hx : (m.dico x).isSome) (hy : (m.dico y).isSome) :
    Mget m x y = Mget m y x := by
  obtain ⟨i, hi⟩ := Option.isSome_iff_exists.mp hx
  obtain ⟨j, hj⟩ := Option.isSome_iff_exists.mp hy
  obtain ⟨hh, hd⟩ := parse_file_header hm
  have hi' : (parse_header (lines.headD [])).2 x = some i := by rw [← hd]; exact hi
  have hj' : (parse_header (lines.headD [])).2 y = some j := by rw [← hd]; exact hj
  have hib : i < m.matrix.length := by
    have := parse_header_lt (lines.headD []) x i hi'
    rw [← hh] at this
    omega
  have hjb : j < m.matrix.length := by
    have := parse_header_lt (lines.headD []) y j hj'
    rw [← hh] at this
    omega
  unfold Mget
  rw [hi, hj]
  exact hsym i hib j hjb

/-- Witness for `c7_symmetric_lookup` at the symmetric file `c7SymLines`. -/
theorem c7_symmetric_lookup_witness :
    parse_file c7SymLines = some (loadD c7SymLines) ∧
    (loadD c7SymLines).header.length ≤ (loadD c7SymLines).matrix.length ∧
    (∀ i < (loadD c7SymLines).matrix.length, ∀ j < (loadD c7SymLines).matrix.length,
      mget (loadD c7SymLines).matrix i j = mget (loadD c7SymLines).matrix j i) ∧
    Mget (loadD c7SymLines) "x".toList "y".toList =
      Mget (loadD c7SymLines) "y".toList "x".toList :=
  ⟨rfl, by decide, by decide,
    c7_symmetric_lookup c7SymLines (loadD c7SymLines) "x".toList "y".toList rfl
      (by decide) (by decide) (by decide) (by decide)⟩

theorem mem_common_fields {lines2 : List (List Char)} {m1 m2 : Matrix}
    (h2 : parse_file lines2 = some m2) (f : Ident) :
    f ∈ common_fields m1 m2 ↔ f ∈ m1.header ∧ f ∈ m2.header := by
  obtain ⟨hh2, hd2⟩ := parse_file_header h2
  unfold common_fields
  rw [List.mem_filter]
  constructor
  · rintro ⟨hmem, hs⟩
    refine ⟨hmem, ?_⟩
    rw [hh2]
    exact (parse_header_mem_iff (lines2.headD []) f).mpr (by rw [← hd2]; exact hs)
  · rintro ⟨hmem, hs⟩
    refine ⟨hmem, ?_⟩
    rw [hd2]
    exact (parse_header_mem_iff (lines2.headD []) f).mp (by rw [← hh2]; exact hs)

/-- C9: for loaded matrices, an identifier lies in `common_fields(A, B)`
exactly when it lies in `common_fields(B, A)`: both compute the set
intersection of the two identifier lists, in different orders. -/
theorem c9_common_fields_commutes (lines1 lines2 : List (List Char))
    (m1 m2 : Matrix) (h1 : parse_file lines1 = some m1)
    (h2 : parse_file lines2 = some m2) (f : Ident) :
    f ∈ common_fields m1 m2 ↔ f ∈ common_fields m2 m1 := by
  rw [mem_common_fields h2 f, mem_common_fields h1 f]
  exact and_comm

/-- Witness for `c9_common_fields_commutes` on `c1LinesA` and `c7Lines`,
which share the identifiers `x` and `y`. -/
theorem c9_common_fields_commutes_witness :
    parse_file c1LinesA = some (loadD c1LinesA) ∧
    parse_file c7Lines = some (loadD c7Lines) ∧
    ("x".toList ∈ common_fields (loadD c1LinesA) (loadD c7Lines) ↔
      "x".toList ∈ common_fields (loadD c7Lines) (loadD c1LinesA)) :=
  ⟨rfl, rfl,
    c9_common_fields_commutes c1LinesA c7Lines (loadD c1LinesA) (loadD c7Lines)
      rfl rfl "x".toList⟩

/-- C10: after a successful load, every binding `dico[id] = k` points
inside the header (`k < |header|`), the header entry at `k` is `id`, and
`k` is the last position at which `id` occurs — the loop's later
assignment overwrote any earlier one. -/
theorem c10_dico_last_index (lines : List (List Char)) (m : Matrix)
    (id : Ident) (k : Nat) (hm : parse_file lines = some m)
    (h : m.dico id = some k) :
    k < m.header.length ∧ m.header.get? k = some id ∧
      ∀ j, m.header.get? j = some id → j ≤ k := by
  obtain ⟨hh, hd⟩ := parse_file_header hm
  rw [hd] at h
  rw [hh]
  obtain ⟨-, hbind, -⟩ := parse_header_inv (lines.headD [])
  obtain ⟨hg, hmax⟩ := hbind id k h
  exact ⟨(List.get?_eq_some.mp hg).1, hg, hmax⟩

/-- Witness for `c10_dico_last_index` at `c10Lines`, whose identifier `x`
occurs at positions 0 and 2 and is mapped to 2. -/
theorem c10_dico_last_index_witness :
    parse_file c10Lines = some (loadD c10Lines) ∧
    (loadD c10Lines).dico "x".toList = some 2 ∧
    (2 < (loadD c10Lines).header.length ∧
      (loadD c10Lines).header.get? 2 = some "x".toList ∧
      ∀ j, (loadD c10Lines).header.get? j = some "x".toList → j ≤ 2) :=
  ⟨rfl, by decide,
    c10_dico_last_index c10Lines (loadD c10Lines) "x".toList 2 rfl (by decide)⟩

end Geec
